import Mathlib

/-
  Verification development for the TK-Planes repository.

  Shallow embedding of:
    - src/data/pixel_samplers.py   (PixelSampler, PatchPixelSampler,
                                    TieredFeaturePatchPixelSampler)
    - src/kplanes/kplanes.py       (camera pose-delta clipping in get_outputs,
                                    vol_tv_mult schedule in get_loss_dict)

  Tensors of index triples are modelled as `List (Nat × Nat × Nat)`;
  `torch.arange(0,n)` is `List.range n`; `Tensor.repeat_interleave k` is
  `repeatInterleave`; `Tensor.repeat k` (tiling) is `listRepeat`;
  `torch.cat([...], dim=1)` of equal-length column vectors is `List.zip`.
  Randomness (`random.sample`, `random.shuffle`, `random.randint`,
  `torch.rand`) is modelled by quantifying over the drawn data, with
  hypotheses stating exactly the support of the draw.
-/

/-- Model of `Tensor.repeat_interleave`: each element of `l` is repeated
`k` times in place (source: pixel_samplers.py lines 75, 77, 487-490). -/
def repeatInterleave {α : Type} (l : List α) (k : Nat) : List α :=
  l.flatMap (fun x => List.replicate k x)

/-- Model of `Tensor.repeat` for a 1-D tensor: the whole list `l` is tiled
`m` times (source: pixel_samplers.py lines 78, 80). -/
def listRepeat {α : Type} (l : List α) (m : Nat) : List α :=
  (List.replicate m l).flatten

/-- Model of `PixelSampler.sample_method` in `all_pixels` mode
(src/data/pixel_samplers.py lines 73-81).  The three interleave counts are
recomputed exactly as in the source; `torch.cat(..., dim=1)` requires the
three column vectors to have equal length (otherwise torch raises), which is
modelled by returning `none` on mismatch. -/
def sampleMethodAllPixels (batchSize numImages imageHeight imageWidth : Nat) :
    Option (List (Nat × Nat × Nat)) :=
  let numImgs := repeatInterleave (List.range numImages) (batchSize / numImages)
  let numHeight :=
    listRepeat
      (repeatInterleave (List.range imageHeight) (batchSize / (imageHeight * numImages)))
      numImages
  let numWidth := listRepeat (List.range imageWidth) (batchSize / imageWidth)
  if numImgs.length = numHeight.length ∧ numHeight.length = numWidth.length then
    some (numImgs.zip (numHeight.zip numWidth))
  else
    none

/-- The row-major enumeration of the full (image, row, column) index space,
used as the specification-side description of "every triple exactly once". -/
def fullIndexEnum (numImages imageHeight imageWidth : Nat) : List (Nat × Nat × Nat) :=
  (List.range numImages) ×ˢ ((List.range imageHeight) ×ˢ (List.range imageWidth))

lemma repeatInterleave_range (n k : Nat) :
    repeatInterleave (List.range n) k = (List.range (n * k)).map (fun i => i / k) := by
  induction n with
  | zero => simp [repeatInterleave]
  | succ n ih =>
    rcases Nat.eq_zero_or_pos k with hk | hk
    · subst hk
      simp [repeatInterleave, List.flatMap]
    · rw [List.range_succ, repeatInterleave, List.flatMap_append, ← repeatInterleave, ih,
        Nat.succ_mul, List.range_add, List.map_append]
      congr 1
      · simp only [repeatInterleave, List.flatMap_cons, List.flatMap_nil, List.append_nil,
          List.map_map]
        rw [List.map_congr_left (g := fun _ => n), List.map_const', List.length_range]
        intro x hx
        have hx' := List.mem_range.mp hx
        simp only [Function.comp_apply]
        rw [Nat.add_comm, Nat.add_mul_div_right _ _ hk, Nat.div_eq_of_lt hx', Nat.zero_add]

lemma listRepeat_map_range {α : Type} (f : Nat → α) (L m : Nat) :
    listRepeat ((List.range L).map f) m = (List.range (m * L)).map (fun i => f (i % L)) := by
  induction m with
  | zero => simp [listRepeat]
  | succ m ih =>
    have hstep : listRepeat ((List.range L).map f) (m + 1)
        = (List.range L).map f ++ listRepeat ((List.range L).map f) m := by
      simp [listRepeat, List.replicate_succ]
    rw [hstep, Nat.succ_mul, Nat.add_comm (m * L) L, List.range_add, List.map_append]
    congr 1
    · apply List.map_congr_left
      intro i hi
      rw [Nat.mod_eq_of_lt (List.mem_range.mp hi)]
    · rw [List.map_map, ih]
      apply List.map_congr_left
      intro j _
      simp [Nat.add_mod_left]

lemma product_append {α β : Type} (l₁ l₂ : List α) (l : List β) :
    (l₁ ++ l₂) ×ˢ l = l₁ ×ˢ l ++ l₂ ×ˢ l := by
  induction l₁ with
  | nil => simp
  | cons a l₁ ih => simp [List.product_cons, ih]

lemma pairDecode (h w : Nat) :
    (List.range (h * w)).map (fun j => (j / w, j % w))
      = (List.range h) ×ˢ (List.range w) := by
  induction h with
  | zero => simp
  | succ h ih =>
    rcases Nat.eq_zero_or_pos w with hw | hw
    · subst hw
      simp
    · rw [Nat.succ_mul, List.range_add, List.map_append, ih, List.range_succ, product_append]
      congr 1
      rw [List.map_map]
      simp only [List.product_cons, List.nil_product, List.append_nil]
      apply List.map_congr_left
      intro x hx
      have hx' := List.mem_range.mp hx
      have hd : (x + h * w) / w = h := by
        rw [Nat.add_mul_div_right _ _ hw, Nat.div_eq_of_lt hx', Nat.zero_add]
      have hm : (x + h * w) % w = x := by
        rw [Nat.add_mul_mod_self_right, Nat.mod_eq_of_lt hx']
      simp only [Function.comp_apply]
      rw [Nat.add_comm, hd, hm]

lemma tripleDecode (N h w : Nat) :
    (List.range (N * (h * w))).map (fun i => (i / (h * w), (i % (h * w)) / w, i % w))
      = fullIndexEnum N h w := by
  induction N with
  | zero => simp [fullIndexEnum]
  | succ N ih =>
    rcases Nat.eq_zero_or_pos (h * w) with hhw | hhw
    · have hinner : (List.range h) ×ˢ (List.range w) = [] :=
        List.length_eq_zero.mp (by simp [List.length_product, hhw])
      simp [fullIndexEnum, hinner, hhw]
    · rw [Nat.succ_mul, List.range_add, List.map_append, ih]
      unfold fullIndexEnum
      rw [List.range_succ, product_append]
      congr 1
      rw [List.map_map]
      simp only [List.product_cons, List.nil_product, List.append_nil]
      rw [show ((List.range h) ×ˢ (List.range w)).map (Prod.mk N)
            = ((List.range (h * w)).map (fun j => (j / w, j % w))).map (Prod.mk N) by
          rw [pairDecode]]
      rw [List.map_map]
      apply List.map_congr_left
      intro j hj
      have hj' := List.mem_range.mp hj
      have hd : (N * (h * w) + j) / (h * w) = N := by
        rw [Nat.add_comm, Nat.add_mul_div_right _ _ hhw, Nat.div_eq_of_lt hj', Nat.zero_add]
      have hm : (N * (h * w) + j) % (h * w) = j := by
        rw [Nat.add_comm, Nat.add_mul_mod_self_right, Nat.mod_eq_of_lt hj']
      have hw' : (N * (h * w) + j) % w = j % w := by
        rw [← Nat.mul_assoc, Nat.add_comm, Nat.add_mul_mod_self_right]
      simp only [Function.comp_apply]
      rw [hd, hm, hw']

lemma fullIndexEnum_nodup (N h w : Nat) : (fullIndexEnum N h w).Nodup :=
  (List.nodup_range N).product ((List.nodup_range h).product (List.nodup_range w))

lemma fullIndexEnum_mem (N h w a r c : Nat) :
    (a, r, c) ∈ fullIndexEnum N h w ↔ a < N ∧ r < h ∧ c < w := by
  simp [fullIndexEnum, List.mem_range]

lemma fullIndexEnum_length (N h w : Nat) :
    (fullIndexEnum N h w).length = N * (h * w) := by
  simp [fullIndexEnum, List.length_product]

/-- Closed-form value of the all-pixels sampler at full-frame batch size. -/
theorem sampleMethodAllPixels_full (N h w : Nat) (hN : 0 < N) (hh : 0 < h) (hw : 0 < w) :
    sampleMethodAllPixels (N * h * w) N h w = some (fullIndexEnum N h w) := by
  have e1 : N * h * w = N * (h * w) := Nat.mul_assoc N h w
  have hN' : N * h * w / N = h * w := by
    rw [e1]
    exact Nat.mul_div_cancel_left _ hN
  have hH' : N * h * w / (h * N) = w := by
    rw [show N * h * w = h * N * w by ring]
    exact Nat.mul_div_cancel_left _ (Nat.mul_pos hh hN)
  have hW' : N * h * w / w = N * h := Nat.mul_div_cancel _ hw
  unfold sampleMethodAllPixels
  simp only [hN', hH', hW']
  rw [repeatInterleave_range N (h * w), repeatInterleave_range h w,
    listRepeat_map_range (fun i => i / w) (h * w) N,
    show List.range w = (List.range w).map id from (List.map_id _).symm,
    listRepeat_map_range id w (N * h)]
  rw [if_pos]
  · simp only [id_eq]
    rw [e1, List.zip_map', List.zip_map']
    exact congrArg some (tripleDecode N h w)
  · simp only [List.length_map, List.length_range]
    exact ⟨trivial, (Nat.mul_assoc N h w).symm⟩

/-- C3: `PixelSampler.sample_method` with no mask, `all_pixels=True` and
`batch_size = num_images * height * width` returns exactly the row-major
enumeration of the full index space: every (image, row, column) triple
appears exactly once (no duplicates, no omissions), and each coordinate is
within its declared bound. -/
theorem c3_sample_all_pixels_full_enumeration (N h w bs : Nat)
    (hN : 0 < N) (hh : 0 < h) (hw : 0 < w) (hbs : bs = N * h * w) :
    sampleMethodAllPixels bs N h w = some (fullIndexEnum N h w)
    ∧ (fullIndexEnum N h w).Nodup
    ∧ (fullIndexEnum N h w).length = bs
    ∧ (∀ a r c : Nat, (a, r, c) ∈ fullIndexEnum N h w ↔ a < N ∧ r < h ∧ c < w) := by
  subst hbs
  refine ⟨sampleMethodAllPixels_full N h w hN hh hw, fullIndexEnum_nodup N h w, ?_, ?_⟩
  · rw [fullIndexEnum_length, Nat.mul_assoc]
  · intro a r c
    exact fullIndexEnum_mem N h w a r c

/-- Witness for C3 at a concrete input: 2 images of size 2×2, batch size 8. -/
theorem c3_sample_all_pixels_full_enumeration_witness :
    (0 < 2 ∧ (8 : Nat) = 2 * 2 * 2)
    ∧ (sampleMethodAllPixels 8 2 2 2 = some (fullIndexEnum 2 2 2)
       ∧ (fullIndexEnum 2 2 2).Nodup
       ∧ (fullIndexEnum 2 2 2).length = 8
       ∧ (∀ a r c : Nat, (a, r, c) ∈ fullIndexEnum 2 2 2 ↔ a < 2 ∧ r < 2 ∧ c < 2)) :=
  ⟨⟨by decide, by decide⟩,
   c3_sample_all_pixels_full_enumeration 2 2 2 8 (by decide) (by decide) (by decide) (by decide)⟩

/-- Model of line 112 of src/data/pixel_samplers.py:
`num_rays_per_batch = image_height * image_width` inside
`PixelSampler.collate_image_dataset_batch`. -/
def collateNumRaysPerBatch (imageHeight imageWidth : Nat) : Nat :=
  imageHeight * imageWidth

/-- The index triples computed by the `all_pixels` call on line 126 of
`PixelSampler.collate_image_dataset_batch` (the no-mask branch), which passes
the recomputed `num_rays_per_batch` as batch size. -/
def collateAllPixelsIndices (numImages imageHeight imageWidth : Nat) :
    Option (List (Nat × Nat × Nat)) :=
  sampleMethodAllPixels (collateNumRaysPerBatch imageHeight imageWidth)
    numImages imageHeight imageWidth

/-- C1 counterexample: for 2 images of size 4×4 with no mask,
`collate_image_dataset_batch` requests `num_rays_per_batch = 4*4 = 16` rays,
so the all-pixels construction yields only 16 triples and does not cover the
32-triple index space: (0,0,2) is never produced. -/
theorem c1_counterexample :
    ((collateAllPixelsIndices 2 4 4).getD []).length ≠ 32
    ∧ (0, 0, 2) ∉ (collateAllPixelsIndices 2 4 4).getD [] := by
  decide

/-- C1 amended: for 2 images of size 4×4 with no mask,
`collate_image_dataset_batch` computes `num_rays_per_batch` as
`height*width = 16` and the all-pixels call returns 16 distinct in-range
triples — not full-frame coverage of both images. -/
theorem c1_collate_sixteen_distinct_triples :
    collateNumRaysPerBatch 4 4 = 16
    ∧ collateAllPixelsIndices 2 4 4
        = some [(0,0,0),(0,0,1),(0,1,2),(0,1,3),(0,2,0),(0,2,1),(0,3,2),(0,3,3),
                (1,0,0),(1,0,1),(1,1,2),(1,1,3),(1,2,0),(1,2,1),(1,3,2),(1,3,3)]
    ∧ ((collateAllPixelsIndices 2 4 4).getD []).Nodup
    ∧ (∀ t ∈ (collateAllPixelsIndices 2 4 4).getD [], t.1 < 2 ∧ t.2.1 < 4 ∧ t.2.2 < 4) := by
  decide

/-- Model of `torch.nonzero(mask[..., 0], as_tuple=False)` on line 70 of
src/data/pixel_samplers.py: the in-range (image, row, column) positions, in
row-major order, at which channel 0 of the mask is true.  A mask tensor is
modelled as a function of (image, row, column, channel). -/
def nonzeroIndices (numImages imageHeight imageWidth : Nat)
    (mask : Nat → Nat → Nat → Nat → Bool) : List (Nat × Nat × Nat) :=
  (fullIndexEnum numImages imageHeight imageWidth).filter
    (fun t => mask t.1 t.2.1 t.2.2 0)

/-- Support of `random.sample(range(n), k)` on line 71: a draw is any list of
`k` distinct indices below `n`; the call raises `ValueError` exactly when no
such list exists, i.e. when `k > n`. -/
def validSampleDraw (n k : Nat) (chosen : List Nat) : Prop :=
  chosen.Nodup ∧ chosen.length = k ∧ ∀ i ∈ chosen, i < n

instance (n k : Nat) (chosen : List Nat) : Decidable (validSampleDraw n k chosen) := by
  unfold validSampleDraw
  infer_instance

/-- Model of the masked branch of `PixelSampler.sample_method`
(src/data/pixel_samplers.py lines 69-72):
`indices = nonzero_indices[chosen_indices]`. -/
def sampleMethodMasked (numImages imageHeight imageWidth : Nat)
    (mask : Nat → Nat → Nat → Nat → Bool) (chosen : List Nat) :
    List (Nat × Nat × Nat) :=
  chosen.map (fun i => (nonzeroIndices numImages imageHeight imageWidth mask).getD i (0, 0, 0))

lemma nonzeroIndices_nodup (N h w : Nat) (mask : Nat → Nat → Nat → Nat → Bool) :
    (nonzeroIndices N h w mask).Nodup :=
  (fullIndexEnum_nodup N h w).filter _

lemma mem_nonzeroIndices (N h w : Nat) (mask : Nat → Nat → Nat → Nat → Bool)
    (t : Nat × Nat × Nat) :
    t ∈ nonzeroIndices N h w mask
      ↔ (t.1 < N ∧ t.2.1 < h ∧ t.2.2 < w) ∧ mask t.1 t.2.1 t.2.2 0 = true := by
  obtain ⟨a, r, c⟩ := t
  rw [nonzeroIndices, List.mem_filter, fullIndexEnum_mem]

lemma nodup_below_length_le (c : List Nat) (n : Nat) (hnd : c.Nodup)
    (hb : ∀ i ∈ c, i < n) : c.length ≤ n := by
  have hsub : c.toFinset ⊆ Finset.range n := fun x hx =>
    Finset.mem_range.mpr (hb _ (List.mem_toFinset.mp hx))
  calc c.length = c.toFinset.card := (List.toFinset_card_of_nodup hnd).symm
    _ ≤ (Finset.range n).card := Finset.card_le_card hsub
    _ = n := Finset.card_range n

/-- C4: with a boolean mask, `PixelSampler.sample_method` returns exactly
`batch_size` triples, each at an in-range location where channel 0 of the
mask is true, with no triple repeated (sampling without replacement); and a
draw exists exactly when `batch_size` does not exceed the number of
mask-true entries. -/
theorem c4_masked_sampling_without_replacement (N h w k : Nat)
    (mask : Nat → Nat → Nat → Nat → Bool) (chosen : List Nat)
    (hdraw : validSampleDraw (nonzeroIndices N h w mask).length k chosen) :
    (sampleMethodMasked N h w mask chosen).length = k
    ∧ (∀ t ∈ sampleMethodMasked N h w mask chosen,
        mask t.1 t.2.1 t.2.2 0 = true ∧ t.1 < N ∧ t.2.1 < h ∧ t.2.2 < w)
    ∧ (sampleMethodMasked N h w mask chosen).Nodup
    ∧ ((∃ c : List Nat, validSampleDraw (nonzeroIndices N h w mask).length k c)
        ↔ k ≤ (nonzeroIndices N h w mask).length) := by
  obtain ⟨hnd, hlen, hbound⟩ := hdraw
  have hmem : ∀ i ∈ chosen,
      (nonzeroIndices N h w mask).getD i (0, 0, 0) ∈ nonzeroIndices N h w mask := by
    intro i hi
    rw [List.getD_eq_getElem _ _ (hbound i hi)]
    exact List.getElem_mem _
  refine ⟨by simp [sampleMethodMasked, hlen], ?_, ?_, ?_⟩
  · intro t ht
    obtain ⟨i, hi, rfl⟩ := List.mem_map.mp ht
    have hin := (mem_nonzeroIndices N h w mask _).mp (hmem i hi)
    exact ⟨hin.2, hin.1⟩
  · apply List.Nodup.map_on ?_ hnd
    intro i hi j hj hij
    have hiL := hbound i hi
    have hjL := hbound j hj
    rw [List.getD_eq_getElem _ _ hiL, List.getD_eq_getElem _ _ hjL] at hij
    have := (List.Nodup.get_inj_iff (nonzeroIndices_nodup N h w mask)
        (i := ⟨i, hiL⟩) (j := ⟨j, hjL⟩)).mp hij
    exact congrArg Fin.val this
  · constructor
    · rintro ⟨c, hcnd, hclen, hcb⟩
      exact hclen ▸ nodup_below_length_le c _ hcnd hcb
    · intro hk
      exact ⟨List.range k, List.nodup_range k, List.length_range k,
        fun i hi => lt_of_lt_of_le (List.mem_range.mp hi) hk⟩

/-- Witness for C4: one 2×2 image, mask true exactly on row 0, draw [1]. -/
theorem c4_masked_sampling_without_replacement_witness :
    validSampleDraw (nonzeroIndices 1 2 2 (fun _ r _ _ => r == 0)).length 1 [1]
    ∧ ((sampleMethodMasked 1 2 2 (fun _ r _ _ => r == 0) [1]).length = 1
       ∧ (∀ t ∈ sampleMethodMasked 1 2 2 (fun _ r _ _ => r == 0) [1],
           (fun _ r _ _ => r == 0 : Nat → Nat → Nat → Nat → Bool) t.1 t.2.1 t.2.2 0 = true
           ∧ t.1 < 1 ∧ t.2.1 < 2 ∧ t.2.2 < 2)
       ∧ (sampleMethodMasked 1 2 2 (fun _ r _ _ => r == 0) [1]).Nodup
       ∧ ((∃ c : List Nat,
            validSampleDraw (nonzeroIndices 1 2 2 (fun _ r _ _ => r == 0)).length 1 c)
          ↔ 1 ≤ (nonzeroIndices 1 2 2 (fun _ r _ _ => r == 0)).length)) :=
  ⟨by decide, c4_masked_sampling_without_replacement 1 2 2 1 _ [1] (by decide)⟩

/-- State of a `PatchPixelSampler` as far as the ray-count bookkeeping is
concerned (src/data/pixel_samplers.py lines 306-328). -/
structure PatchPixelSamplerState where
  patchSize : Nat
  numRaysPerBatch : Nat

/-- Model of `PatchPixelSampler.__init__` (lines 317-320): the requested ray
count is rounded down to a multiple of `patch_size**2` before being stored. -/
def patchInit (numRaysPerBatch patchSize : Nat) : PatchPixelSamplerState :=
  ⟨patchSize, numRaysPerBatch / patchSize ^ 2 * patchSize ^ 2⟩

/-- Model of `PatchPixelSampler.set_num_rays_per_batch` (lines 322-328). -/
def patchSetNumRaysPerBatch (s : PatchPixelSamplerState) (n : Nat) :
    PatchPixelSamplerState :=
  ⟨s.patchSize, n / s.patchSize ^ 2 * s.patchSize ^ 2⟩

/-- C8: the stored `num_rays_per_batch` after construction with argument `n`,
and after any `set_num_rays_per_batch(n)`, equals
`floor(n / patch_size²) * patch_size²` (which is a multiple of `patch_size²`
and at most `n`); in particular `patch_size=2, n=10` stores 8. -/
theorem c8_patch_num_rays_rounding (n ps : Nat) (s : PatchPixelSamplerState) :
    (patchInit n ps).numRaysPerBatch = n / ps ^ 2 * ps ^ 2
    ∧ (patchSetNumRaysPerBatch s n).numRaysPerBatch = n / s.patchSize ^ 2 * s.patchSize ^ 2
    ∧ ps ^ 2 ∣ (patchInit n ps).numRaysPerBatch
    ∧ (patchInit n ps).numRaysPerBatch ≤ n
    ∧ (patchInit 10 2).numRaysPerBatch = 8 :=
  ⟨rfl, rfl, dvd_mul_left (ps ^ 2) (n / ps ^ 2), Nat.div_mul_le_self n (ps ^ 2), by decide⟩

/-- Result of a patch-sampler call: either the process aborts (`exit(-1)`)
or a list of index triples is returned. -/
inductive PatchSampleResult where
  | aborted : PatchSampleResult
  | sampled : List (Nat × Nat × Nat) → PatchSampleResult
deriving DecidableEq

/-- Model of `PatchPixelSampler.sample_method` (src/data/pixel_samplers.py
lines 331-366).  With a mask it falls back to base-class masked sampling.
Without a mask, the source draws the random patch anchors and then executes
three debug `print`s followed by an unconditional `exit(-1)` (lines 350-353)
before the patch-construction code (lines 355-364) is ever reached, so every
unmasked call aborts the process. -/
def patchSampleMethod (batchSize numImages imageHeight imageWidth : Nat)
    (mask : Option (Nat → Nat → Nat → Nat → Bool)) (chosen : List Nat) :
    PatchSampleResult :=
  match mask with
  | some m => .sampled (sampleMethodMasked numImages imageHeight imageWidth m chosen)
  | none => .aborted

/-- C5 (code bug): every unmasked `PatchPixelSampler.sample_method` call hits
the leftover debug `exit(-1)` and aborts instead of returning the
`batch_size/patch_size²` patch blocks; evaluated concretely at batch size 8,
one 16×16 image (patch size 2). -/
theorem c5_patch_sample_method_unmasked_aborts :
    (∀ bs N h w chosen, patchSampleMethod bs N h w none chosen = .aborted)
    ∧ patchSampleMethod 8 1 16 16 none [] = .aborted :=
  ⟨fun _ _ _ _ _ => rfl, rfl⟩

/-- The anchor-offset list built by `TieredFeaturePatchPixelSampler` for one
permutation queue: `start + idx * patch_size` for
`idx ∈ range((dim // patch_size) - 1)` (src/data/pixel_samplers.py lines
392-395 with `dim = 720` for rows, lines 398-401 with `dim = 1280` for
columns, and identically in the refill branches at lines 462-477).  The
subsequent `random.shuffle` is modelled by quantifying over permutations of
this list. -/
def anchorInitList (dim start patchSize : Nat) : List Nat :=
  (List.range (dim / patchSize - 1)).map (fun k => start + k * patchSize)

/-- Persistent queues of `TieredFeaturePatchPixelSampler` with the hard-coded
`num_to_select = 1` (line 390): the image-selection rotation and the
row/column anchor queues (each queue one row of the `dh_lst`/`dw_lst`
tensors). -/
structure TieredState where
  selectIdxs : List Nat
  dhLst : List Nat
  dwLst : List Nat

/-- Fresh shuffled data consumed when a queue is found exhausted, modelling
`random.randint`/`random.shuffle` in the refill branches (lines 448-450 and
462-477). -/
structure TieredRefill where
  selectRefill : List Nat
  dhRefill : List Nat
  dwRefill : List Nat

/-- Model of `select = torch.zeros(153).to(bool); select[idxs] = True`
(lines 454-455). -/
def selectMask (idxs : List Nat) : List Bool :=
  (List.range 153).map (fun i => decide (i ∈ idxs))

/-- Model of boolean-mask row indexing `index[curr_select]` (line 491). -/
def boolSelect {α : Type} (sel : List Bool) (l : List α) : List α :=
  ((l.zip sel).filter (fun p => p.2)).map (fun p => p.1)

/-- One iteration of the tier loop (lines 486-493): restrict the precomputed
tier grid to the rows of the selected images and offset rows by `dh`,
columns by `dw`. -/
def tierSelect (sel : List Bool) (currDim dh dw : Nat)
    (index : List (Nat × Nat × Nat)) : List (Nat × Nat × Nat) :=
  (boolSelect (repeatInterleave sel (currDim ^ 2)) index).map
    (fun t => (t.1, t.2.1 + dh, t.2.2 + dw))

/-- The 4-tier loop of `sample_method` (lines 486-498): per tier the
dimension halves and the anchors are ceil-halved (`torch.ceil(d/2)` on a
nonnegative integer tensor is `(d+1)/2`). -/
def tierLoop (tiers : List (List (Nat × Nat × Nat))) (currDim dw dh : Nat)
    (sel : List Bool) : List (List (Nat × Nat × Nat)) :=
  match tiers with
  | [] => []
  | index :: rest =>
      tierSelect sel currDim dh dw index ::
        tierLoop rest (currDim / 2) ((dw + 1) / 2) ((dh + 1) / 2) sel

/-- The four precomputed per-tier base grids from `__init__` (lines 406-413):
the `all_pixels` enumeration for 153 images at dimension `patch_size / 2^k`
(the `torch.cat` length mismatch cannot occur at these arguments, so the
`Option` is collapsed with `getD`). -/
def tieredInitIndices (patchSize : Nat) : List (List (Nat × Nat × Nat)) :=
  (List.range 4).map (fun k =>
    (sampleMethodAllPixels ((patchSize / 2 ^ k) ^ 2 * 153) 153
      (patchSize / 2 ^ k) (patchSize / 2 ^ k)).getD [])

/-- Result of a tiered sampler call: either the process aborts (`exit(-1)`)
or the 5-tuple `(indices, dw_og, dh_og, select, patch_size)` of line 500. -/
inductive TieredSampleResult where
  | aborted : TieredSampleResult
  | sampled : List (List (Nat × Nat × Nat)) → Nat → Nat → List Bool → Nat →
      TieredSampleResult

/-- Model of `TieredFeaturePatchPixelSampler.sample_method` (lines 430-500)
with `num_to_select = 1`.  With a mask the source prints an error message and
calls `exit(-1)` (lines 440-444): the call aborts and no index triples are
ever returned.  Without a mask it pops the selection rotation and the two
anchor queues (refilling an exhausted queue from fresh shuffled data first)
and builds the four offset tier index lists. -/
def tieredSampleMethod (st : TieredState) (refill : TieredRefill)
    (patchSize : Nat) (tiers : List (List (Nat × Nat × Nat)))
    (mask : Option (Nat → Nat → Nat → Nat → Bool)) :
    TieredSampleResult × TieredState :=
  match mask with
  | some _ => (.aborted, st)
  | none =>
      let sel0 := if st.selectIdxs.length < 1 then refill.selectRefill else st.selectIdxs
      let currSelectIdxs := sel0.take 1
      let selectIdxs' := sel0.drop 1
      let dwq := if st.dwLst.length = 0 then refill.dwRefill else st.dwLst
      let dhq := if st.dhLst.length = 0 then refill.dhRefill else st.dhLst
      let dw := dwq.headD 0
      let dh := dhq.headD 0
      let select := selectMask currSelectIdxs
      (.sampled (tierLoop tiers patchSize dw dh select) dw dh select patchSize,
        ⟨selectIdxs', dhq.tail, dwq.tail⟩)

/-- Consecutive unmasked `sample_method` calls; the refill data potentially
consumed by each call is supplied per call. -/
def tieredRun (steps : List TieredRefill) (patchSize : Nat)
    (tiers : List (List (Nat × Nat × Nat))) (st : TieredState) :
    List TieredSampleResult × TieredState :=
  match steps with
  | [] => ([], st)
  | r :: rs =>
      let p := tieredSampleMethod st r patchSize tiers none
      let q := tieredRun rs patchSize tiers p.2
      (p.1 :: q.1, q.2)

/-- The row anchor (`dh_og`) carried by one sampler result. -/
def dhOf : TieredSampleResult → Nat
  | .aborted => 0
  | .sampled _ _ dh _ _ => dh

lemma tieredRun_pops_dh (steps : List TieredRefill) :
    ∀ (q sel dw : List Nat) (patchSize : Nat)
      (tiers : List (List (Nat × Nat × Nat))),
      steps.length = q.length →
      (tieredRun steps patchSize tiers ⟨sel, q, dw⟩).1.map dhOf = q := by
  induction steps with
  | nil =>
    intro q sel dw ps tiers hlen
    have hq : q = [] := List.length_eq_zero.mp hlen.symm
    subst hq
    rfl
  | cons r rs ih =>
    intro q sel dw ps tiers hlen
    cases q with
    | nil => simp at hlen
    | cons a q' =>
      have hlen' : rs.length = q'.length := by
        simpa using hlen
      have hrec := ih q' ((if sel = [] then r.selectRefill else sel).tail)
        ((if dw = [] then r.dwRefill else dw).tail) ps tiers hlen'
      simp [tieredRun, tieredSampleMethod, dhOf, hrec]

lemma anchorInitList_nodup (dim start patchSize : Nat) (hps : 0 < patchSize) :
    (anchorInitList dim start patchSize).Nodup := by
  apply List.Nodup.map ?_ (List.nodup_range _)
  intro k k' hkk
  have := Nat.add_left_cancel hkk
  exact Nat.eq_of_mul_eq_mul_right hps this

/-- C2 counterexample: with patch size 8 and the hard-coded frame height 720,
the row-anchor queue built at construction holds `720/8 - 1 = 89` values, not
`height/patch_size = 90`; in particular the anchor `0 + 89·8 = 712` of the
claimed 90-element set is never enqueued. -/
theorem c2_counterexample :
    (anchorInitList 720 0 8).length = 89
    ∧ (anchorInitList 720 0 8).length ≠ 720 / 8
    ∧ (712 : Nat) ∉ anchorInitList 720 0 8 := by
  decide

/-- C2 amended: with `num_to_select = 1`, across `(720/patch_size) - 1`
consecutive unmasked `sample_method` calls starting from a freshly filled dh
queue (an arbitrary shuffle of the construction-time anchor list), the popped
row anchors are exactly that shuffle: a permutation of
`{dh_start + k·patch_size : k < 720/patch_size - 1}`, all distinct, each used
exactly once before any value repeats. -/
theorem c2_dh_anchor_permutation (patchSize dhStart : Nat) (hps : 0 < patchSize)
    (q sel dw : List Nat) (hq : q.Perm (anchorInitList 720 dhStart patchSize))
    (steps : List TieredRefill) (hsteps : steps.length = q.length)
    (tiers : List (List (Nat × Nat × Nat))) :
    (tieredRun steps patchSize tiers ⟨sel, q, dw⟩).1.map dhOf = q
    ∧ ((tieredRun steps patchSize tiers ⟨sel, q, dw⟩).1.map dhOf).Perm
        (anchorInitList 720 dhStart patchSize)
    ∧ ((tieredRun steps patchSize tiers ⟨sel, q, dw⟩).1.map dhOf).Nodup
    ∧ ((tieredRun steps patchSize tiers ⟨sel, q, dw⟩).1.map dhOf).length
        = 720 / patchSize - 1
    ∧ ∀ x ∈ (tieredRun steps patchSize tiers ⟨sel, q, dw⟩).1.map dhOf,
        ∃ k < 720 / patchSize - 1, x = dhStart + k * patchSize := by
  have hrun := tieredRun_pops_dh steps q sel dw patchSize tiers hsteps
  rw [hrun]
  refine ⟨rfl, hq, hq.nodup_iff.mpr (anchorInitList_nodup 720 dhStart patchSize hps), ?_, ?_⟩
  · rw [hq.length_eq]
    simp [anchorInitList]
  · intro x hx
    have := hq.mem_iff.mp hx
    obtain ⟨k, hk, rfl⟩ := List.mem_map.mp this
    exact ⟨k, List.mem_range.mp hk, rfl⟩

/-- Witness for C2 (amended) at patch size 360: the anchor queue is the
single-element list [0] and one call pops it. -/
theorem c2_dh_anchor_permutation_witness :
    ((0 : Nat) < 360
     ∧ [0].Perm (anchorInitList 720 0 360)
     ∧ [TieredRefill.mk [] [] []].length = [0].length)
    ∧ ((tieredRun [TieredRefill.mk [] [] []] 360 [] ⟨[], [0], []⟩).1.map dhOf = [0]
       ∧ ((tieredRun [TieredRefill.mk [] [] []] 360 [] ⟨[], [0], []⟩).1.map dhOf).Perm
           (anchorInitList 720 0 360)
       ∧ ((tieredRun [TieredRefill.mk [] [] []] 360 [] ⟨[], [0], []⟩).1.map dhOf).Nodup
       ∧ ((tieredRun [TieredRefill.mk [] [] []] 360 [] ⟨[], [0], []⟩).1.map dhOf).length
           = 720 / 360 - 1
       ∧ ∀ x ∈ (tieredRun [TieredRefill.mk [] [] []] 360 [] ⟨[], [0], []⟩).1.map dhOf,
           ∃ k < 720 / 360 - 1, x = 0 + k * 360) :=
  ⟨⟨by decide, by decide, rfl⟩,
   c2_dh_anchor_permutation 360 0 (by decide) [0] [] [] (by decide)
     [TieredRefill.mk [] [] []] rfl []⟩

/-- C6: calling `TieredFeaturePatchPixelSampler.sample_method` with a mask
tensor hits the explicit fatal `exit(-1)` guard: the call aborts, returns no
index triples, and leaves the sampler queues untouched — a hard failure, not
a silent fallback to unmasked or uniform sampling. -/
theorem c6_tiered_masked_sampling_aborts (st : TieredState) (refill : TieredRefill)
    (patchSize : Nat) (tiers : List (List (Nat × Nat × Nat)))
    (m : Nat → Nat → Nat → Nat → Bool) :
    tieredSampleMethod st refill patchSize tiers (some m)
      = (TieredSampleResult.aborted, st) :=
  rfl

/-- Model of `torch.clip(x, lo, hi)` on a real scalar
(src/kplanes/kplanes.py lines 408, 410). -/
noncomputable def clip (x lo hi : ℝ) : ℝ := min (max x lo) hi

/-- Model of `KPlanesModel.get_rot_mat_torch` (src/kplanes/kplanes.py lines
369-393) for one camera: `R = Rz(roll) · Ry(yaw) · Rx(pitch)` with the three
axis rotation matrices exactly as stacked in the source. -/
noncomputable def getRotMatTorch (roll yaw pitch : ℝ) : Matrix (Fin 3) (Fin 3) ℝ :=
  let rz : Matrix (Fin 3) (Fin 3) ℝ :=
    Matrix.of ![![Real.cos roll, -Real.sin roll, 0],
                ![Real.sin roll, Real.cos roll, 0],
                ![0, 0, 1]]
  let ry : Matrix (Fin 3) (Fin 3) ℝ :=
    Matrix.of ![![Real.cos yaw, 0, Real.sin yaw],
                ![0, 1, 0],
                ![-Real.sin yaw, 0, Real.cos yaw]]
  let rx : Matrix (Fin 3) (Fin 3) ℝ :=
    Matrix.of ![![1, 0, 0],
                ![0, Real.cos pitch, -Real.sin pitch],
                ![0, Real.sin pitch, Real.cos pitch]]
  rz * (ry * rx)

/-- The rotation matrix actually applied to ray directions in
`KPlanesModel.get_outputs` (line 408):
`R = get_rot_mat_torch(torch.clip(rot_angs, -0.01, 0.01))`. -/
noncomputable def appliedRotMat (rotAngs : Fin 3 → ℝ) : Matrix (Fin 3) (Fin 3) ℝ :=
  getRotMatTorch (clip (rotAngs 0) (-0.01) 0.01) (clip (rotAngs 1) (-0.01) 0.01)
    (clip (rotAngs 2) (-0.01) 0.01)

/-- The ray origin actually produced in `KPlanesModel.get_outputs` (line
410): `new_origins = origins + torch.clip(selected_delts, -0.2, 0.2)`. -/
noncomputable def appliedOrigin (origin delt : Fin 3 → ℝ) : Fin 3 → ℝ :=
  fun i => origin i + clip (delt i) (-0.2) 0.2

lemma clip_bounds (x lo hi : ℝ) (h : lo ≤ hi) : lo ≤ clip x lo hi ∧ clip x lo hi ≤ hi :=
  ⟨le_min (le_max_right x lo) h, min_le_right _ _⟩

lemma getRotMatTorch_roll_only (θ : ℝ) :
    getRotMatTorch θ 0 0
      = Matrix.of ![![Real.cos θ, -Real.sin θ, 0],
                    ![Real.sin θ, Real.cos θ, 0],
                    ![0, 0, 1]] := by
  unfold getRotMatTorch
  have hy : (Matrix.of ![![Real.cos 0, 0, Real.sin 0],
      ![0, 1, 0], ![-Real.sin 0, 0, Real.cos 0]]) = (1 : Matrix (Fin 3) (Fin 3) ℝ) := by
    rw [Real.cos_zero, Real.sin_zero, Matrix.one_fin_three]
    norm_num
  have hx : (Matrix.of ![![(1 : ℝ), 0, 0], ![0, Real.cos 0, -Real.sin 0],
      ![0, Real.sin 0, Real.cos 0]]) = (1 : Matrix (Fin 3) (Fin 3) ℝ) := by
    rw [Real.cos_zero, Real.sin_zero, Matrix.one_fin_three]
    norm_num
  rw [hy, hx]
  simp only [Matrix.mul_one]

lemma cos_five_lt_cos_hundredth : Real.cos 5 < Real.cos 0.01 := by
  have h2pi : Real.cos 5 = Real.cos (2 * Real.pi - 5) := by
    rw [Real.cos_sub, Real.cos_two_pi, Real.sin_two_pi]
    ring
  rw [h2pi]
  apply Real.cos_lt_cos_of_nonneg_of_le_pi
  · norm_num
  · have := Real.pi_lt_d2
    linarith
  · have := Real.pi_gt_d2
    norm_num
    linarith

lemma clip_five : clip 5 (-0.01) 0.01 = 0.01 := by
  unfold clip
  rw [max_eq_left (by norm_num), min_eq_right (by norm_num)]

lemma clip_zero_small : clip 0 (-0.01) 0.01 = 0 := by
  unfold clip
  rw [max_eq_left (by norm_num), min_eq_left (by norm_num)]

lemma appliedRotMat_five : appliedRotMat ![5, 0, 0] = getRotMatTorch 0.01 0 0 := by
  show getRotMatTorch (clip 5 (-0.01) 0.01) (clip 0 (-0.01) 0.01) (clip 0 (-0.01) 0.01)
    = getRotMatTorch 0.01 0 0
  rw [clip_five, clip_zero_small]

/-- C7: in `get_outputs` the rotation matrix applied to ray directions is
built from the learned per-camera angles clipped to [-0.01, 0.01] radians and
the offset added to ray origins is the learned delta clipped to [-0.2, 0.2];
in particular a stored rotation angle of 5.0 radians yields the rotation
matrix of the clipped angle 0.01, which is not the matrix of angle 5.0. -/
theorem c7_camera_pose_delta_clipping :
    (∀ x : ℝ, -0.01 ≤ clip x (-0.01) 0.01 ∧ clip x (-0.01) 0.01 ≤ 0.01)
    ∧ (∀ origin delt : Fin 3 → ℝ, ∀ i : Fin 3,
        |appliedOrigin origin delt i - origin i| ≤ 0.2)
    ∧ appliedRotMat ![5, 0, 0] = getRotMatTorch 0.01 0 0
    ∧ appliedRotMat ![5, 0, 0] ≠ getRotMatTorch 5 0 0 := by
  refine ⟨fun x => clip_bounds x _ _ (by norm_num), ?_, appliedRotMat_five, ?_⟩
  · intro origin delt i
    have hb := clip_bounds (delt i) (-0.2) 0.2 (by norm_num)
    unfold appliedOrigin
    rw [add_sub_cancel_left]
    exact abs_le.mpr ⟨hb.1, hb.2⟩
  · rw [appliedRotMat_five]
    intro heq
    have h00 := congrFun (congrFun heq 0) 0
    rw [getRotMatTorch_roll_only, getRotMatTorch_roll_only] at h00
    simp only [Matrix.of_apply, Matrix.cons_val', Matrix.cons_val_zero,
      Matrix.empty_val', Matrix.cons_val_fin_one] at h00
    exact absurd h00.symm (ne_of_lt cos_five_lt_cos_hundredth)

/-- Loss-schedule state of `KPlanesModel` (src/kplanes/kplanes.py, lines
193-196 of `populate_modules`: `cosine_idx = 0`,
`vol_tv_mult = conv_vol_tv_mult = 0.0001`).  The float multipliers are
modelled as exact rationals; the claims proved about them are purely
order-theoretic. -/
structure LossScheduleState where
  cosineIdx : Nat
  volTvMult : ℚ
  convVolTvMult : ℚ
deriving DecidableEq

/-- Initial schedule state from `populate_modules`. -/
def lossScheduleInit : LossScheduleState := ⟨0, 1/10000, 1/10000⟩

/-- Model of `np.clip(x, lo, hi)` on a rational scalar (line 811). -/
def npClip (x lo hi : ℚ) : ℚ := min (max x lo) hi

/-- One `get_loss_dict` call (src/kplanes/kplanes.py): line 522 increments
`cosine_idx` unconditionally before the `self.training` gate; lines 810-812
double the two multipliers and clip them to [0, 0.01], exactly when the
incremented counter is a multiple of 3000 and the model is training. -/
def lossScheduleStep (training : Bool) (s : LossScheduleState) : LossScheduleState :=
  let idx := s.cosineIdx + 1
  if training ∧ idx % 3000 = 0 then
    ⟨idx, npClip (s.volTvMult * 2) 0 (1/100), npClip (s.convVolTvMult * 2) 0 (1/100)⟩
  else
    ⟨idx, s.volTvMult, s.convVolTvMult⟩

/-- Any finite sequence of `get_loss_dict` calls from the initial state. -/
def lossScheduleRun (flags : List Bool) : LossScheduleState :=
  flags.foldl (fun s b => lossScheduleStep b s) lossScheduleInit

lemma lossScheduleStep_invariant (b : Bool) (s : LossScheduleState)
    (h : 0 < s.volTvMult ∧ s.volTvMult ≤ 1/100) :
    0 < (lossScheduleStep b s).volTvMult ∧ (lossScheduleStep b s).volTvMult ≤ 1/100 := by
  simp only [lossScheduleStep, npClip]
  split
  · exact ⟨lt_min (lt_max_iff.mpr (Or.inl (by linarith [h.1]))) (by norm_num),
      min_le_right _ _⟩
  · exact h

lemma lossScheduleRun_invariant (flags : List Bool) :
    0 < (lossScheduleRun flags).volTvMult ∧ (lossScheduleRun flags).volTvMult ≤ 1/100 := by
  suffices hgen : ∀ s : LossScheduleState, 0 < s.volTvMult ∧ s.volTvMult ≤ 1/100 →
      0 < (flags.foldl (fun s b => lossScheduleStep b s) s).volTvMult
      ∧ (flags.foldl (fun s b => lossScheduleStep b s) s).volTvMult ≤ 1/100 by
    exact hgen lossScheduleInit ⟨by norm_num [lossScheduleInit], by norm_num [lossScheduleInit]⟩
  induction flags with
  | nil => exact fun s hs => hs
  | cons b bs ih =>
    intro s hs
    exact ih _ (lossScheduleStep_invariant b s hs)

/-- C9: over every reachable training-step state, the volume-TV multiplier
never exceeds 0.01, never decreases, and is doubled (then clipped to at most
0.01) exactly on training steps whose incremented step counter is a multiple
of 3000. -/
theorem c9_vol_tv_mult_schedule (flags : List Bool) (b : Bool) :
    (lossScheduleRun flags).volTvMult ≤ 1/100
    ∧ (lossScheduleRun flags).volTvMult ≤ (lossScheduleStep b (lossScheduleRun flags)).volTvMult
    ∧ (lossScheduleStep b (lossScheduleRun flags)).volTvMult
        = if b = true ∧ ((lossScheduleRun flags).cosineIdx + 1) % 3000 = 0
          then min (max ((lossScheduleRun flags).volTvMult * 2) 0) (1/100)
          else (lossScheduleRun flags).volTvMult := by
  obtain ⟨hpos, hle⟩ := lossScheduleRun_invariant flags
  refine ⟨hle, ?_, ?_⟩
  · simp only [lossScheduleStep, npClip]
    split
    · exact le_min (le_trans (by linarith) (le_max_left _ _)) hle
    · exact le_refl _
  · simp only [lossScheduleStep, npClip]
    split
    · next hcond => rfl
    · next hcond => rfl

/-- Runtime tensor values for the heap model of `PixelSampler.sample` and the
two collation paths: index tensors (n×3 integers), single images (H×W×C),
stacked image tensors (N×H×W×C), integer vectors (`image_idx`), gathered
pixel rows (n×C) and 1-D float vectors (`patch_weights`).  Float entries are
modelled as rationals; no claim depends on their numeric values. -/
inductive TensorV where
  | tIdx : List (Nat × Nat × Nat) → TensorV
  | tImg : List (List (List ℚ)) → TensorV
  | tImg4 : List (List (List (List ℚ))) → TensorV
  | tNat : List Nat → TensorV
  | tPix : List (List ℚ) → TensorV
  | tVec : List ℚ → TensorV
deriving DecidableEq

/-- A heap of allocated tensors: `next` is the first free address; addresses
below `next` are the tensors the caller may hold references to. -/
structure Heap where
  next : Nat
  store : Nat → TensorV

/-- Allocating a fresh tensor (every torch op producing a new tensor). -/
def hAlloc (h : Heap) (v : TensorV) : Nat × Heap :=
  (h.next, ⟨h.next + 1, fun a => if a = h.next then v else h.store a⟩)

/-- In-place mutation of the tensor at address `a`
(`indices[:, 0] = ...` in the source). -/
def hWrite (h : Heap) (a : Nat) (v : TensorV) : Heap :=
  ⟨h.next, fun b => if b = a then v else h.store b⟩

/-- Frame relation: `h1` extends `h0` when every address already allocated in
`h0` holds the same tensor in `h1`. -/
def heapExtends (h0 h1 : Heap) : Prop :=
  h0.next ≤ h1.next ∧ ∀ a, a < h0.next → h1.store a = h0.store a

lemma heapExtends_refl (h : Heap) : heapExtends h h :=
  ⟨le_refl _, fun _ _ => rfl⟩

lemma heapExtends_trans {h0 h1 h2 : Heap} (e1 : heapExtends h0 h1)
    (e2 : heapExtends h1 h2) : heapExtends h0 h2 :=
  ⟨le_trans e1.1 e2.1, fun a ha =>
    (e2.2 a (lt_of_lt_of_le ha e1.1)).trans (e1.2 a ha)⟩

lemma heapExtends_alloc (h : Heap) (v : TensorV) : heapExtends h (hAlloc h v).2 :=
  ⟨Nat.le_succ _, fun a ha => if_neg (Nat.ne_of_lt ha)⟩

lemma heapExtends_write {h0 h1 : Heap} (a : Nat) (v : TensorV)
    (hx : heapExtends h0 h1) (ha : h0.next ≤ a) : heapExtends h0 (hWrite h1 a v) :=
  ⟨hx.1, fun b hb => by
    have hne : b ≠ a := Nat.ne_of_lt (lt_of_lt_of_le hb ha)
    show (if b = a then v else h1.store b) = h0.store b
    rw [if_neg hne]
    exact hx.2 b hb⟩

/-- `indices[:, 0] = i` (lines 207, 218): overwrite column 0 of an index
tensor with the constant `i`. -/
def setIdxCol0 (i : Nat) (v : TensorV) : TensorV :=
  match v with
  | .tIdx rows => .tIdx (rows.map (fun t => (i, t.2.1, t.2.2)))
  | v => v

/-- Read the rows of an index tensor. -/
def idxRows (v : TensorV) : List (Nat × Nat × Nat) :=
  match v with
  | .tIdx rows => rows
  | _ => []

/-- `batch["image"][i][indices[:, 1], indices[:, 2]]` (lines 209, 220):
advanced indexing of one image, producing a fresh n×C tensor. -/
def gatherImage (v : TensorV) (rows : List (Nat × Nat × Nat)) : TensorV :=
  match v with
  | .tImg pix => .tPix (rows.map (fun t => (pix.getD t.2.1 []).getD t.2.2 []))
  | _ => .tPix []

/-- `value[c, y, x]` (line 227): triple advanced indexing of a stacked
tensor, producing a fresh n×C tensor. -/
def gather3 (v : TensorV) (rows : List (Nat × Nat × Nat)) : TensorV :=
  match v with
  | .tImg4 pix => .tPix (rows.map (fun t => ((pix.getD t.1 []).getD t.2.1 []).getD t.2.2 []))
  | _ => .tPix []

/-- `indices[:, 0] = batch["image_idx"][c]` (line 236): remap column 0
through the `image_idx` lookup vector. -/
def remapCol0 (imageIdx : TensorV) (v : TensorV) : TensorV :=
  match imageIdx, v with
  | .tNat l, .tIdx rows => .tIdx (rows.map (fun t => (l.getD t.1 0, t.2.1, t.2.2)))
  | _, v => v

/-- `torch.cat(all_indices, dim=0)` (line 222). -/
def catIdx (vs : List TensorV) : TensorV := .tIdx (vs.flatMap idxRows)

/-- `torch.cat(all_images, dim=0)` (line 231). -/
def catPix (vs : List TensorV) : TensorV :=
  .tPix (vs.flatMap (fun v => match v with | .tPix rows => rows | _ => []))

/-- One iteration of the per-image loop of
`collate_image_dataset_batch_list` (lines 198-209 with a mask, 213-220
without): allocate the sampled index tensor (the random or masked draw for
image `i` is supplied by `draws`, both branches perform the same heap
traffic), overwrite its column 0 with `i` in place, and allocate the gathered
pixel tensor.  Returns the two fresh addresses and the new heap. -/
def collateListStep (draws : Nat → List (Nat × Nat × Nat)) (i ref : Nat) (h : Heap) :
    Nat × Nat × Heap :=
  let p1 := hAlloc h (.tIdx (draws i))
  let h2 := hWrite p1.2 p1.1 (setIdxCol0 i (p1.2.store p1.1))
  let p2 := hAlloc h2 (gatherImage (h2.store ref) (idxRows (h2.store p1.1)))
  (p1.1, p2.1, p2.2)

/-- The whole per-image loop, over `(i, image ref)` pairs. -/
def collateListLoop (draws : Nat → List (Nat × Nat × Nat)) :
    List (Nat × Nat) → Heap → List Nat × List Nat × Heap
  | [], h => ([], [], h)
  | (i, ref) :: rest, h =>
      let s := collateListStep draws i ref h
      let r := collateListLoop draws rest s.2.2
      (s.1 :: r.1, s.2.1 :: r.2.1, r.2.2)

/-- The dict comprehension of lines 225-229: allocate `value[c, y, x]` for
every remaining batch entry. -/
def allocGatherOthers (rows : List (Nat × Nat × Nat)) :
    List (String × Nat) → Heap → List (String × Nat) × Heap
  | [], h => ([], h)
  | (k, ref) :: rest, h =>
      let p := hAlloc h (gather3 (h.store ref) rows)
      let r := allocGatherOthers rows rest p.2
      ((k, p.1) :: r.1, r.2)

/-- Dispatch field of an image batch: `sample` (lines 250-260) branches on
the runtime type of `batch["image"]`. -/
inductive ImageField where
  | list : List Nat → ImageField
  | tensor : Nat → ImageField
  | other : ImageField

/-- An image batch handed to `PixelSampler.sample`: references into the heap
for the image data, the `image_idx` vector, the optional per-image masks and
all remaining keys. -/
structure ImageBatch where
  image : ImageField
  imageIdxRef : Nat
  maskRefs : Option (List Nat)
  otherRefs : List (String × Nat)

/-- The collated pixel batch: a fresh mapping whose fields reference heap
tensors.  `fullImage` (list path, line 240) aliases the input image list;
`fullImagePatch`/`patchWeights` are the tensor-path side channels. -/
structure CollatedBatch where
  indices : List Nat
  image : Option Nat
  others : List (String × Nat)
  fullImage : Option (List Nat)
  fullImagePatch : Option Nat
  patchWeights : Option Nat

/-- Model of `PixelSampler.collate_image_dataset_batch_list`
(src/data/pixel_samplers.py lines 174-242): run the per-image loop, allocate
the concatenated index tensor, allocate the gathered tensors for the other
keys, allocate the concatenated image tensor, then remap column 0 of the
concatenated indices in place (the only in-place write outside the loop, and
it targets the freshly concatenated tensor). -/
def collateImageDatasetBatchList (draws : Nat → List (Nat × Nat × Nat))
    (batch : ImageBatch) (imageRefs : List Nat) (keepFullImage : Bool) (h : Heap) :
    CollatedBatch × Heap :=
  let pairs := (List.range imageRefs.length).zip imageRefs
  let lres := collateListLoop draws pairs h
  let h1 := lres.2.2
  let pcat := hAlloc h1 (catIdx (lres.1.map h1.store))
  let h2 := pcat.2
  let rows := idxRows (h2.store pcat.1)
  let pothers := allocGatherOthers rows batch.otherRefs h2
  let h3 := pothers.2
  let pimg := hAlloc h3 (catPix (lres.2.1.map h3.store))
  let h4 := pimg.2
  let h5 := hWrite h4 pcat.1 (remapCol0 (h4.store batch.imageIdxRef) (h4.store pcat.1))
  ({ indices := [pcat.1], image := some pimg.1, others := pothers.1,
     fullImage := if keepFullImage then some imageRefs else none,
     fullImagePatch := none, patchWeights := none }, h5)

/-- Allocation of a python list of index tensors (the tiered sampler output
bound on line 126). -/
def allocIdxTensors : List (List (Nat × Nat × Nat)) → Heap → List Nat × Heap
  | [], h => ([], h)
  | rows :: rest, h =>
      let p := hAlloc h (.tIdx rows)
      let r := allocIdxTensors rest p.2
      (p.1 :: r.1, r.2)

/-- `batch["image"][select]` (line 151): boolean-mask row copy of the stacked
image tensor, a fresh tensor. -/
def boolSelect4 (sel : List Bool) (v : TensorV) : TensorV :=
  match v with
  | .tImg4 imgs => .tImg4 (boolSelect sel imgs)
  | v => v

/-- Lines 152-155: slice each selected image to the
`[dh, dh+xy) × [dw, dw+xy)` block and re-stack. -/
def sliceBlocks (v : TensorV) (dhs dws : List Nat) (xyDim : Nat) : TensorV :=
  match v with
  | .tImg4 imgs => .tImg4 ((List.range dhs.length).map (fun i =>
      (((imgs.getD i []).drop (dhs.getD i 0)).take xyDim).map
        (fun row => (row.drop (dws.getD i 0)).take xyDim)))
  | v => v

/-- Lines 157-170: the patch-weight pipeline flattens each selected block and
produces a per-image weight vector; the mean/centering/sqrt/softmax
arithmetic (transcendental, value-irrelevant to every claim here) is supplied
as `weightFn`. -/
def patchWeightsOf (weightFn : List (List (List ℚ)) → List ℚ) (v : TensorV) : TensorV :=
  match v with
  | .tImg4 imgs => .tVec (weightFn (imgs.map (fun img => img.flatten)))
  | _ => .tVec []

/-- Model of `PixelSampler.collate_image_dataset_batch`
(src/data/pixel_samplers.py lines 90-172): the sampled per-tier index rows
and the `(dw, dh, select, xy_dim)` side outputs of `sample_method` are
supplied as arguments (the tensors they live in are freshly built inside
`sample_method`).  The path performs only reads of the batch plus fresh
allocations; it never writes to an existing address. -/
def collateImageDatasetBatchT (samplerIdx : List (List (Nat × Nat × Nat)))
    (dhs dws : List Nat) (selectRows : List Bool) (xyDim : Nat)
    (weightFn : List (List (List ℚ)) → List ℚ)
    (imageRef : Nat) (keepFullImage : Bool) (h : Heap) : CollatedBatch × Heap :=
  let ptiers := allocIdxTensors samplerIdx h
  let h1 := ptiers.2
  if keepFullImage then
    let pfull := hAlloc h1 (boolSelect4 selectRows (h1.store imageRef))
    let h2 := pfull.2
    let pslice := hAlloc h2 (sliceBlocks (h2.store pfull.1) dhs dws xyDim)
    let h3 := pslice.2
    let ppw := hAlloc h3 (patchWeightsOf weightFn (h3.store pslice.1))
    ({ indices := ptiers.1, image := none, others := [], fullImage := none,
       fullImagePatch := some pslice.1, patchWeights := some ppw.1 }, ppw.2)
  else
    ({ indices := ptiers.1, image := none, others := [], fullImage := none,
       fullImagePatch := none, patchWeights := none }, h1)

/-- Model of `PixelSampler.sample` (src/data/pixel_samplers.py lines
244-262): dispatch on the runtime type of `batch["image"]`.  On the list path
the source first takes a shallow copy of the dict (line 251), so the caller's
mapping is never touched; on the unsupported type it raises `ValueError`
without touching the heap. -/
def pixelSamplerSample (draws : Nat → List (Nat × Nat × Nat))
    (samplerIdx : List (List (Nat × Nat × Nat))) (dhs dws : List Nat)
    (selectRows : List Bool) (xyDim : Nat)
    (weightFn : List (List (List ℚ)) → List ℚ)
    (batch : ImageBatch) (keepFullImage : Bool) (h : Heap) :
    Option CollatedBatch × Heap :=
  match batch.image with
  | .list refs =>
      let p := collateImageDatasetBatchList draws batch refs keepFullImage h
      (some p.1, p.2)
  | .tensor ref =>
      let p := collateImageDatasetBatchT samplerIdx dhs dws selectRows xyDim weightFn
        ref keepFullImage h
      (some p.1, p.2)
  | .other => (none, h)

/-- Every heap address the caller's batch mapping references. -/
def batchRefs (batch : ImageBatch) : List Nat :=
  (match batch.image with
   | .list refs => refs
   | .tensor ref => [ref]
   | .other => []) ++ [batch.imageIdxRef]
    ++ (batch.maskRefs.getD []) ++ batch.otherRefs.map (fun p => p.2)

lemma collateListStep_extends (draws : Nat → List (Nat × Nat × Nat)) (i ref : Nat)
    (h : Heap) : heapExtends h (collateListStep draws i ref h).2.2 :=
  heapExtends_trans
    (heapExtends_write _ _ (heapExtends_alloc h _) (le_refl _))
    (heapExtends_alloc _ _)

lemma collateListLoop_extends (draws : Nat → List (Nat × Nat × Nat))
    (pairs : List (Nat × Nat)) :
    ∀ h : Heap, heapExtends h (collateListLoop draws pairs h).2.2 := by
  induction pairs with
  | nil => exact fun h => heapExtends_refl h
  | cons p rest ih =>
    intro h
    obtain ⟨i, ref⟩ := p
    exact heapExtends_trans (collateListStep_extends draws i ref h)
      (ih (collateListStep draws i ref h).2.2)

lemma allocGatherOthers_extends (rows : List (Nat × Nat × Nat))
    (others : List (String × Nat)) :
    ∀ h : Heap, heapExtends h (allocGatherOthers rows others h).2 := by
  induction others with
  | nil => exact fun h => heapExtends_refl h
  | cons p rest ih =>
    intro h
    obtain ⟨k, ref⟩ := p
    exact heapExtends_trans (heapExtends_alloc h _)
      (ih (hAlloc h (gather3 (h.store ref) rows)).2)

lemma allocIdxTensors_extends (tiers : List (List (Nat × Nat × Nat))) :
    ∀ h : Heap, heapExtends h (allocIdxTensors tiers h).2 := by
  induction tiers with
  | nil => exact fun h => heapExtends_refl h
  | cons rows rest ih =>
    intro h
    exact heapExtends_trans (heapExtends_alloc h _) (ih (hAlloc h (.tIdx rows)).2)

lemma collateImageDatasetBatchList_extends (draws : Nat → List (Nat × Nat × Nat))
    (batch : ImageBatch) (imageRefs : List Nat) (keepFullImage : Bool) (h : Heap) :
    heapExtends h (collateImageDatasetBatchList draws batch imageRefs keepFullImage h).2 := by
  unfold collateImageDatasetBatchList
  set pairs := (List.range imageRefs.length).zip imageRefs with hpairs
  have e1 := collateListLoop_extends draws pairs h
  set h1 := (collateListLoop draws pairs h).2.2 with hh1
  have e2 := heapExtends_alloc h1 (catIdx ((collateListLoop draws pairs h).1.map h1.store))
  set h2 := (hAlloc h1 (catIdx ((collateListLoop draws pairs h).1.map h1.store))).2 with hh2
  have e3 := allocGatherOthers_extends
    (idxRows (h2.store (hAlloc h1 (catIdx ((collateListLoop draws pairs h).1.map h1.store))).1))
    batch.otherRefs h2
  set h3 := (allocGatherOthers
    (idxRows (h2.store (hAlloc h1 (catIdx ((collateListLoop draws pairs h).1.map h1.store))).1))
    batch.otherRefs h2).2 with hh3
  have e4 := heapExtends_alloc h3
    (catPix ((collateListLoop draws pairs h).2.1.map h3.store))
  have echain : heapExtends h
      (hAlloc h3 (catPix ((collateListLoop draws pairs h).2.1.map h3.store))).2 :=
    heapExtends_trans (heapExtends_trans (heapExtends_trans e1 e2) e3) e4
  have hcatref : (hAlloc h1 (catIdx ((collateListLoop draws pairs h).1.map h1.store))).1
      = h1.next := rfl
  have hle : h.next ≤ (hAlloc h1 (catIdx ((collateListLoop draws pairs h).1.map h1.store))).1 := by
    rw [hcatref]
    exact e1.1
  exact heapExtends_write _ _ echain hle

lemma collateImageDatasetBatchT_extends (samplerIdx : List (List (Nat × Nat × Nat)))
    (dhs dws : List Nat) (selectRows : List Bool) (xyDim : Nat)
    (weightFn : List (List (List ℚ)) → List ℚ)
    (imageRef : Nat) (keepFullImage : Bool) (h : Heap) :
    heapExtends h (collateImageDatasetBatchT samplerIdx dhs dws selectRows xyDim weightFn
      imageRef keepFullImage h).2 := by
  unfold collateImageDatasetBatchT
  have e1 := allocIdxTensors_extends samplerIdx h
  set h1 := (allocIdxTensors samplerIdx h).2 with hh1
  cases keepFullImage with
  | false => exact e1
  | true =>
    exact heapExtends_trans e1 (heapExtends_trans (heapExtends_alloc _ _)
      (heapExtends_trans (heapExtends_alloc _ _) (heapExtends_alloc _ _)))

/-- C10: `PixelSampler.sample` never mutates the caller's image batch: the
list path copies the dict before collating, and both collation paths only
read the batch's tensors — every in-place tensor write targets a tensor
freshly allocated during the call.  Hence after `sample` returns, every heap
address allocated before the call (in particular every address the batch
mapping references) still holds the same tensor. -/
theorem c10_sample_preserves_input_batch (draws : Nat → List (Nat × Nat × Nat))
    (samplerIdx : List (List (Nat × Nat × Nat))) (dhs dws : List Nat)
    (selectRows : List Bool) (xyDim : Nat)
    (weightFn : List (List (List ℚ)) → List ℚ)
    (batch : ImageBatch) (keepFullImage : Bool) (h : Heap) :
    heapExtends h (pixelSamplerSample draws samplerIdx dhs dws selectRows xyDim weightFn
        batch keepFullImage h).2
    ∧ ∀ r ∈ batchRefs batch, r < h.next →
        (pixelSamplerSample draws samplerIdx dhs dws selectRows xyDim weightFn
          batch keepFullImage h).2.store r = h.store r := by
  have hext : heapExtends h (pixelSamplerSample draws samplerIdx dhs dws selectRows xyDim
      weightFn batch keepFullImage h).2 := by
    unfold pixelSamplerSample
    cases hb : batch.image with
    | list refs => exact collateImageDatasetBatchList_extends draws batch refs keepFullImage h
    | tensor ref =>
      exact collateImageDatasetBatchT_extends samplerIdx dhs dws selectRows xyDim weightFn
        ref keepFullImage h
    | other => exact heapExtends_refl h
  exact ⟨hext, fun r _ hr => hext.2 r hr⟩
